import Mathlib

/-!
Shallow embedding of the monad-monitor node dashboard (Rust sources under
src/): the Prometheus exposition-line parser (src/metrics.rs), the
JSON-RPC hex helper and the new-heads block-window maintenance
(src/rpc.rs), and the stateful aggregator `AppState` (src/state.rs).

Modelling conventions:
- Rust `u64` values are `Nat`; where the source adds two `u64`s and the
  sum could wrap (release-mode two's-complement wrapping), the embedding
  applies `% 2^64` explicitly.  Rust `saturating_sub` on `u64` is exactly
  `Nat` subtraction.
- Rust `f64` values are modelled as `ℚ`.  Every f64 computation a claim
  exercises is exact in binary floating point (integer operands below
  2^53, divisions and scalings whose results are representable), so the
  rational model agrees with the float semantics on those inputs.
- Rust `String`/`&str` values are `List Char`; `Instant` is a `Nat`
  millisecond clock passed explicitly to each operation as `now`.
- `VecDeque` is a `List` with the front at the head: `push_back` appends,
  `pop_front` is `tail`, `back()` is `getLast?`, `front()` is `head?`.
- `Vec::insert(0, b)` is `cons`, `Vec::pop()` is `dropLast`.
-/

/-- `2^64`, the modulus of Rust `u64` arithmetic. -/
def U64 : ℕ := 2 ^ 64

/-- Rust `f64 as u64` cast: truncation toward zero, saturating at `0`
below and at `u64::MAX` above (all values cast in this program
are nonnegative, where the cast is the floor). -/
def f64_as_u64 (q : ℚ) : ℕ := min (Int.toNat ⌊q⌋) (U64 - 1)

/-- Value of a hexadecimal digit, `none` for a non-hex character
(mirrors the digit test of Rust `u64::from_str_radix(_, 16)`). -/
def hexDigitVal (c : Char) : Option ℕ :=
  if '0' ≤ c ∧ c ≤ '9' then some (c.toNat - '0'.toNat)
  else if 'a' ≤ c ∧ c ≤ 'f' then some (c.toNat - 'a'.toNat + 10)
  else if 'A' ≤ c ∧ c ≤ 'F' then some (c.toNat - 'A'.toNat + 10)
  else none

/-- Strip the optional leading `+` sign that Rust's integer parsers
accept. -/
def stripPlus (s : List Char) : List Char :=
  if s.head? = some '+' then s.tail else s

/-- One step of the hex-digit accumulation of
`u64::from_str_radix(_, 16)`. -/
def hexStep (acc : Option ℕ) (c : Char) : Option ℕ :=
  acc.bind (fun a => (hexDigitVal c).map (fun d => a * 16 + d))

/-- Rust `u64::from_str_radix(s, 16)`: an optional leading `+`, then one
or more hex digits, rejecting an empty digit string, any invalid digit,
and overflow past `u64::MAX` (the final bound check is equivalent to the
source's per-step checked arithmetic because the accumulator is
monotone). -/
def fromStrRadix16 (s : List Char) : Option ℕ :=
  let s0 := stripPlus s
  if s0.isEmpty then none
  else match s0.foldl hexStep (some 0) with
    | some n => if n < U64 then some n else none
    | none => none

/-- Rust `str::trim_start_matches("0x")`: removes **all** leading
repetitions of the prefix `0x`, not just one. -/
def trimStartMatches0x : List Char → List Char
  | '0' :: 'x' :: rest => trimStartMatches0x rest
  | s => s

/-- src/rpc.rs `parse_hex_u64`: strip leading `0x` repetitions, parse as
base-16 `u64`, and turn any parse failure into `0` (`unwrap_or(0)`). -/
def parse_hex_u64 (hex : List Char) : ℕ :=
  (fromStrRadix16 (trimStartMatches0x hex)).getD 0

/-- Reading of the spec's words for C5 ("strips an optional `0x`
prefix"): remove at most ONE leading `0x`, then parse as the code does.
Kept separate to compare against `parse_hex_u64`. -/
def parse_hex_u64_specSingleStrip (hex : List Char) : ℕ :=
  let stripped := match hex with
    | '0' :: 'x' :: rest => rest
    | s => s
  (fromStrRadix16 stripped).getD 0

/-- Rust `char::is_whitespace` (Unicode White_Space property). -/
def rustIsWhitespace (c : Char) : Bool :=
  c = ' ' ∨ ('\x09' ≤ c ∧ c ≤ '\x0d') ∨ c = '\u0085' ∨ c = ' ' ∨
  c = ' ' ∨ (' ' ≤ c ∧ c ≤ ' ') ∨ c = ' ' ∨
  c = ' ' ∨ c = ' ' ∨ c = ' ' ∨ c = '　'

/-- Rust `str::trim`: drop whitespace from both ends. -/
def rustTrim (s : List Char) : List Char :=
  ((s.dropWhile rustIsWhitespace).reverse.dropWhile rustIsWhitespace).reverse

/-- First token of Rust `str::split_whitespace`, together with the
remainder after that token (`none` when only whitespace is left). -/
def firstToken (l : List Char) : Option (List Char × List Char) :=
  match l.dropWhile rustIsWhitespace with
  | [] => none
  | c :: rest =>
    some (c :: rest.takeWhile (fun a => ¬ rustIsWhitespace a),
          rest.dropWhile (fun a => ¬ rustIsWhitespace a))

/-- Decimal value of a digit list (most significant first). -/
def digitsVal (l : List Char) : ℕ :=
  l.foldl (fun a c => a * 10 + (c.toNat - '0'.toNat)) 0

/-- Exponent part of the Rust `f64::from_str` grammar:
`Sign? Digit+`, as a signed integer. -/
def parseF64Exp (r : List Char) : Option ℤ :=
  let esgn : ℤ := match r with
    | '-' :: _ => -1
    | _ => 1
  let r3 := match r with
    | '+' :: t => t
    | '-' :: t => t
    | t => t
  if r3.isEmpty ∨ ¬ (r3.all Char.isDigit) then none
  else some (esgn * (digitsVal r3 : ℤ))

/-- Rust `f64::from_str` on the finite-number grammar
`Sign? (Digit+ | Digit+ . Digit* | Digit* . Digit+) ((e|E) Sign? Digit+)?`,
with the exact rational value (the float parse rounds this rational to
the nearest `f64`; the inputs the claims exercise are exactly
representable, where the two agree).  The non-finite literals
`inf`/`infinity`/`nan`, which no claim exercises, are not modelled and
yield `none`. -/
def parseF64 (s : List Char) : Option ℚ :=
  let sgn : ℚ := match s with
    | '-' :: _ => -1
    | _ => 1
  let s0 := match s with
    | '+' :: r => r
    | '-' :: r => r
    | r => r
  let ip := s0.takeWhile Char.isDigit
  let r1 := s0.dropWhile Char.isDigit
  let fp := match r1 with
    | '.' :: r => r.takeWhile Char.isDigit
    | _ => []
  let r2 := match r1 with
    | '.' :: r => r.dropWhile Char.isDigit
    | r => r
  if ip.isEmpty ∧ fp.isEmpty then none
  else
    let mant : ℚ := sgn * ((digitsVal ip : ℚ) + (digitsVal fp : ℚ) / (10 : ℚ) ^ fp.length)
    match r2 with
    | [] => some mant
    | 'e' :: r => (parseF64Exp r).map (fun ex => mant * (10 : ℚ) ^ ex)
    | 'E' :: r => (parseF64Exp r).map (fun ex => mant * (10 : ℚ) ^ ex)
    | _ => none

/-- Rust `str::parse::<u64>()`: an optional leading `+`, then one or
more decimal digits, rejecting overflow past `u64::MAX`. -/
def parseU64 (s : List Char) : Option ℕ :=
  let s0 := match s with
    | '+' :: r => r
    | r => r
  if s0.isEmpty ∨ ¬ s0.all Char.isDigit then none
  else if digitsVal s0 < U64 then some (digitsVal s0) else none

/-- The value/timestamp tail of src/metrics.rs `parse_metric_line`:
split the rest of the line on whitespace, parse the first token as an
`f64` (failure aborts), and the optional second token as a `u64`
millisecond timestamp defaulting to `0`. -/
def parseValueTimestamp (rest : List Char) : Option (ℚ × ℕ) :=
  match firstToken rest with
  | none => none
  | some (v, r) =>
    match parseF64 v with
    | none => none
    | some value =>
      let timestamp : ℕ := match firstToken r with
        | some (t, _) => (parseU64 t).getD 0
        | none => 0
      some (value, timestamp)

/-- src/metrics.rs `parse_metric_line`.  If the line contains a `\x7b`,
the name is the text before the first `\x7b` and the rest is the text
after the first `\x7d` of the whole line (no `\x7d` at all fails the
parse); otherwise the line splits at its first whitespace character into
name and rest.  The rest is trimmed and handed to
`parseValueTimestamp`. -/
def parse_metric_line (line : List Char) : Option (List Char × ℚ × ℕ) :=
  let nameRest : Option (List Char × List Char) :=
    if '{' ∈ line then
      let name := line.takeWhile (fun c => c ≠ '{')
      match line.dropWhile (fun c => c ≠ '}') with
      | [] => none
      | _ :: afterBrace => some (name, rustTrim afterBrace)
    else
      match line.dropWhile (fun c => ¬ rustIsWhitespace c) with
      | [] => none
      | _ :: rest =>
        some (line.takeWhile (fun c => ¬ rustIsWhitespace c), rustTrim rest)
  match nameRest with
  | none => none
  | some (name, rest) =>
    (parseValueTimestamp rest).map (fun vt => (name, vt.1, vt.2))

/-- src/metrics.rs `PrometheusMetrics` (all fields `u64`, defaulting to
`0`). -/
structure PrometheusMetrics where
  block_num : ℕ := 0
  tx_commits : ℕ := 0
  tx_commits_timestamp_ms : ℕ := 0
  peer_count : ℕ := 0
  statesync_progress : ℕ := 0
  statesync_target : ℕ := 0
  uptime_us : ℕ := 0
  latency_p99_ms : ℕ := 0
  pending_txs : ℕ := 0
  upstream_validators : ℕ := 0
deriving Repr, DecidableEq

/-- `PrometheusMetrics::default()`: all fields zero. -/
def PrometheusMetrics.mkDefault : PrometheusMetrics := {}

/-- src/rpc.rs `Block`. -/
structure Block where
  number : ℕ
  hash : List Char
  tx_count : ℕ
  timestamp : ℕ
  gas_used : ℕ
  gas_limit : ℕ
deriving Repr, DecidableEq

/-- src/rpc.rs `RpcData` (`recent_blocks` front = newest). -/
structure RpcData where
  block_number : ℕ := 0
  gas_price_gwei : ℚ := 0
  recent_blocks : List Block := []
  client_version : List Char := []
deriving Repr, DecidableEq

/-- `RpcData::default()`. -/
def RpcData.mkDefault : RpcData := {}

/-- src/system.rs `SystemData`, restricted to the fields the aggregator
operations under verification read (`net_rx_bytes`, `net_tx_bytes`);
the remaining fields are opaque payload the claims never inspect. -/
structure SystemData where
  net_rx_bytes : ℕ := 0
  net_tx_bytes : ℕ := 0
deriving Repr, DecidableEq

/-- src/state.rs `TxSample`. -/
structure TxSample where
  tx_commits : ℕ
  timestamp_ms : ℕ
deriving Repr, DecidableEq

/-- src/state.rs `TPS_HISTORY_SIZE`. -/
def TPS_HISTORY_SIZE : ℕ := 300

/-- src/state.rs `SAMPLE_HISTORY_SIZE`. -/
def SAMPLE_HISTORY_SIZE : ℕ := 10

/-- src/state.rs `AppState` (UI theme omitted; `Instant`s are `Nat`
milliseconds, `last_block_time` is `Option Nat`). -/
structure AppState where
  metrics : PrometheusMetrics
  rpc_data : RpcData
  system : SystemData
  tx_samples : List TxSample
  tps : ℚ
  tps_history : List ℕ
  tps_peak : ℚ
  tps_prev : ℚ
  last_update : ℕ
  last_block_time : Option ℕ
  last_block_number : ℕ
  latency_prev : ℕ
  peers_prev : ℕ
  net_rx_prev : ℕ
  net_tx_prev : ℕ
  net_rx_rate : ℚ
  net_tx_rate : ℚ
  last_error : Option (List Char)
deriving Repr, DecidableEq

/-- `AppState::new()`, with `now` standing for `Instant::now()`. -/
def AppState.new (now : ℕ) : AppState where
  metrics := PrometheusMetrics.mkDefault
  rpc_data := RpcData.mkDefault
  system := {}
  tx_samples := []
  tps := 0
  tps_history := []
  tps_peak := 0
  tps_prev := 0
  last_update := now
  last_block_time := none
  last_block_number := 0
  latency_prev := 0
  peers_prev := 0
  net_rx_prev := 0
  net_tx_prev := 0
  net_rx_rate := 0
  net_tx_rate := 0
  last_error := none

/-- The TX-sample admission step of `AppState::update_metrics`
(src/state.rs lines 123-142): a sample is considered only when the
snapshot's tx-commit timestamp is positive, and pushed only when it is
strictly newer than the back of the ring; the ring is trimmed to
`SAMPLE_HISTORY_SIZE` by popping the front. -/
def push_sample (samples : List TxSample) (m : PrometheusMetrics) : List TxSample :=
  if m.tx_commits_timestamp_ms > 0 then
    if (samples.getLast?.map (fun b => decide (m.tx_commits_timestamp_ms > b.timestamp_ms))).getD true then
      let l := samples ++ [⟨m.tx_commits, m.tx_commits_timestamp_ms⟩]
      if l.length > SAMPLE_HISTORY_SIZE then l.tail else l
    else samples
  else samples

/-- The TPS value `AppState::calculate_tps` computes from the sample
ring (`none` when the computation is skipped: fewer than two samples or
zero elapsed time).  `saturating_sub` on `u64` is `Nat` subtraction. -/
def tps_of_samples (samples : List TxSample) : Option ℚ :=
  if samples.length < 2 then none
  else
    match samples.head?, samples.getLast? with
    | some oldest, some newest =>
      let tx_delta : ℕ := newest.tx_commits - oldest.tx_commits
      let time_delta_ms : ℕ := newest.timestamp_ms - oldest.timestamp_ms
      if time_delta_ms > 0 then
        some ((tx_delta : ℚ) / (time_delta_ms : ℚ) * 1000)
      else none
    | _, _ => none

/-- src/state.rs `AppState::calculate_tps`: when a TPS value is
computed, shift `tps` into `tps_prev`, raise the `tps_peak` high-water
mark, and push the value capped at `10000` (as a `u64`) onto
`tps_history`, trimmed to `TPS_HISTORY_SIZE` from the front. -/
def calculate_tps (s : AppState) : AppState :=
  match tps_of_samples s.tx_samples with
  | none => s
  | some v =>
    { s with
      tps_prev := s.tps
      tps := v
      tps_peak := if v > s.tps_peak then v else s.tps_peak
      tps_history :=
        let h := s.tps_history ++ [f64_as_u64 (min v 10000)]
        if h.length > TPS_HISTORY_SIZE then h.tail else h }

/-- src/state.rs `AppState::update_metrics` (`now` stands for the two
`Instant::now()` reads).  Note `latency_prev`/`peers_prev` capture the
PREVIOUS snapshot's values before `metrics` is overwritten, and
`last_error` is unconditionally cleared. -/
def update_metrics (s : AppState) (m : PrometheusMetrics) (now : ℕ) : AppState :=
  let s1 := if m.block_num > s.last_block_number then
      { s with last_block_time := some now, last_block_number := m.block_num }
    else s
  let s2 := { s1 with tx_samples := push_sample s1.tx_samples m }
  let s3 := calculate_tps s2
  { s3 with
    latency_prev := s3.metrics.latency_p99_ms
    peers_prev := s3.metrics.peer_count
    metrics := m
    last_update := now
    last_error := none }

/-- src/state.rs `AppState::update_rpc`. -/
def update_rpc (s : AppState) (rpc_data : RpcData) (now : ℕ) : AppState :=
  let s1 := match rpc_data.recent_blocks.head? with
    | some block =>
      if block.number > s.last_block_number then
        { s with last_block_time := some now, last_block_number := block.number }
      else s
    | none => s
  { s1 with rpc_data := rpc_data }

/-- src/state.rs `AppState::update_system`: the byte rates are updated
only when the previously stored counter is positive AND the new counter
strictly exceeds it; the counters are stored unconditionally. -/
def update_system (s : AppState) (system : SystemData) : AppState :=
  let s1 := if s.net_rx_prev > 0 ∧ system.net_rx_bytes > s.net_rx_prev then
      { s with net_rx_rate := ((system.net_rx_bytes - s.net_rx_prev : ℕ) : ℚ) / 5 }
    else s
  let s2 := if s1.net_tx_prev > 0 ∧ system.net_tx_bytes > s1.net_tx_prev then
      { s1 with net_tx_rate := ((system.net_tx_bytes - s1.net_tx_prev : ℕ) : ℚ) / 5 }
    else s1
  { s2 with
    net_rx_prev := system.net_rx_bytes
    net_tx_prev := system.net_tx_bytes
    system := system }

/-- src/state.rs `AppState::set_error`. -/
def set_error (s : AppState) (error : List Char) : AppState :=
  { s with last_error := some error }

/-- src/state.rs `AppState::pulse_intensity`, with `now` standing for
the current instant (elapsed milliseconds are `now - t`). -/
def pulse_intensity (s : AppState) (now : ℕ) : ℚ :=
  match s.last_block_time with
  | some t => max (1 - ((now - t : ℕ) : ℚ) / 1000) 0
  | none => 0

/-- src/state.rs `AppState::tps_trend` (f64 comparisons, threshold
`50.0`). -/
def tps_trend (s : AppState) : ℤ :=
  if s.tps > s.tps_prev + 50 then 1
  else if s.tps < s.tps_prev - 50 then -1
  else 0

/-- src/state.rs `AppState::latency_trend` (u64 comparisons, threshold
`20`; the `u64` additions wrap modulo `2^64` as in release-mode
Rust). -/
def latency_trend (s : AppState) : ℤ :=
  let current := s.metrics.latency_p99_ms
  if current > (s.latency_prev + 20) % U64 then 1
  else if (current + 20) % U64 < s.latency_prev then -1
  else 0

/-- src/state.rs `AppState::peers_trend` (u64 comparisons, threshold
`5`; the `u64` additions wrap modulo `2^64` as in release-mode
Rust). -/
def peers_trend (s : AppState) : ℤ :=
  let current := s.metrics.peer_count
  if current > (s.peers_prev + 5) % U64 then 1
  else if (current + 5) % U64 < s.peers_prev then -1
  else 0

/-- The new-heads notification handling of src/rpc.rs
`run_subscription` (lines 178-204), restricted to the block-window
state: a parsed header with block number `0` is ignored; otherwise the
new block is prepended to `recent_blocks`, the window is trimmed to 30
by popping the back, and `block_number` is set to the new head. -/
def insert_new_head (data : RpcData) (b : Block) : RpcData :=
  if b.number > 0 then
    let rb := b :: data.recent_blocks
    let rb2 := if rb.length > 30 then rb.dropLast else rb
    { data with block_number := b.number, recent_blocks := rb2 }
  else data

/-- One message into the aggregator task: the consumer applies whichever
update corresponds to the arriving snapshot or error. -/
inductive AggOp where
  | metricsUpd (m : PrometheusMetrics) (now : ℕ)
  | rpcUpd (r : RpcData) (now : ℕ)
  | systemUpd (y : SystemData)
  | errorUpd (e : List Char)
deriving Repr

/-- Apply one aggregator operation. -/
def applyOp (s : AppState) : AggOp → AppState
  | .metricsUpd m now => update_metrics s m now
  | .rpcUpd r now => update_rpc s r now
  | .systemUpd y => update_system s y
  | .errorUpd e => set_error s e

/-- A hex-digit fold that has already failed stays failed. -/
lemma hexFold_none (l : List Char) : l.foldl hexStep none = none := by
  induction l with
  | nil => rfl
  | cons a t ih => simpa [hexStep] using ih

/-- A non-hex character anywhere makes the hex-digit fold fail. -/
lemma hexFold_bad (l : List Char) (c : Char) (hc : c ∈ l) (hbad : hexDigitVal c = none)
    (acc : Option ℕ) : l.foldl hexStep acc = none := by
  induction l generalizing acc with
  | nil => cases hc
  | cons a t ih =>
    rcases List.mem_cons.mp hc with h | h
    · subst h
      have hstep : hexStep acc c = none := by cases acc <;> simp [hexStep, hbad]
      simp only [List.foldl_cons, hstep]
      exact hexFold_none t
    · exact ih h _

/-- `fromStrRadix16` only returns values below `2^64`. -/
lemma fromStrRadix16_lt (s : List Char) (n : ℕ) (h : fromStrRadix16 s = some n) : n < U64 := by
  unfold fromStrRadix16 at h
  simp only at h
  split at h
  · exact absurd h (by simp)
  · split at h
    · split at h
      · injection h with h2
        omega
      · exact absurd h (by simp)
    · exact absurd h (by simp)

/-- A non-sign character survives `stripPlus`. -/
lemma mem_stripPlus (s : List Char) (c : Char) (hc : c ∈ s) (hplus : c ≠ '+') :
    c ∈ stripPlus s := by
  unfold stripPlus
  split
  · rename_i hhead
    cases s with
    | nil => cases hc
    | cons a t =>
      rcases List.mem_cons.mp hc with h | h
      · exact absurd (h.trans (by simpa using hhead)) hplus
      · simpa using h
  · exact hc

/-- C5 (amended): `parse_hex_u64` is total and never errors: every
result is a valid `u64`; an input that reduces to the empty string
yields `0`; and any remaining character that is neither a hex digit
nor the sign `+` forces the result `0`. -/
theorem C5_hex_total (s : List Char) :
    parse_hex_u64 s < U64 ∧
    (trimStartMatches0x s = [] → parse_hex_u64 s = 0) ∧
    (∀ c ∈ trimStartMatches0x s, hexDigitVal c = none → c ≠ '+' → parse_hex_u64 s = 0) := by
  refine ⟨?_, ?_, ?_⟩
  · unfold parse_hex_u64
    cases hfs : fromStrRadix16 (trimStartMatches0x s) with
    | none => simp [U64]
    | some n => simpa using fromStrRadix16_lt _ n hfs
  · intro h
    simp [parse_hex_u64, h, fromStrRadix16, stripPlus]
  · intro c hc hbad hplus
    unfold parse_hex_u64
    suffices h : fromStrRadix16 (trimStartMatches0x s) = none by simp [h]
    unfold fromStrRadix16
    simp only
    split
    · rfl
    · rw [hexFold_bad _ c (mem_stripPlus _ c hc hplus) hbad]

/-- C5 counterexample to the claim as stated: on `0x0x1` the code
strips BOTH `0x` prefixes and parses `1`, while a single optional
prefix strip leaves `0x1`, whose `x` is not a hex digit, so the
claim's reading demands `0`. -/
theorem C5_cex :
    parse_hex_u64 ("0x0x1".toList) = 1 ∧
    parse_hex_u64_specSingleStrip ("0x0x1".toList) = 0 := by decide

/-- Witness: `C5_hex_total` applied at the concrete input `0xz3`. -/
theorem C5_witness : parse_hex_u64 ("0xz3".toList) = 0 :=
  (C5_hex_total ("0xz3".toList)).2.2 'z' (by decide) (by decide) (by decide)

/-- `calculate_tps` touches only the TPS bookkeeping fields. -/
lemma calculate_tps_keeps (s : AppState) :
    (calculate_tps s).last_error = s.last_error ∧
    (calculate_tps s).last_block_time = s.last_block_time ∧
    (calculate_tps s).tx_samples = s.tx_samples ∧
    (calculate_tps s).metrics = s.metrics := by
  unfold calculate_tps
  cases tps_of_samples s.tx_samples <;> simp

/-- C4: `set_error` overwrites the stored error, a (successful)
`update_metrics` unconditionally clears it, and neither `update_rpc`
nor `update_system` ever reads or writes it. -/
theorem C4_error_asymmetry (s : AppState) (e : List Char) (m : PrometheusMetrics)
    (r : RpcData) (y : SystemData) (n1 n2 : ℕ) :
    (set_error s e).last_error = some e ∧
    (update_metrics s m n1).last_error = none ∧
    (update_rpc s r n2).last_error = s.last_error ∧
    (update_system s y).last_error = s.last_error := by
  refine ⟨rfl, rfl, ?_, ?_⟩
  · unfold update_rpc
    dsimp only
    cases r.recent_blocks.head?
    · rfl
    · dsimp only
      split <;> rfl
  · unfold update_system
    dsimp only
    split <;> split <;> rfl

/-- The TPS trend as a function of the signed delta. -/
lemma tps_trend_delta (s : AppState) :
    (tps_trend s = 1 ↔ 50 < s.tps - s.tps_prev) ∧
    (tps_trend s = -1 ↔ s.tps - s.tps_prev < -50) ∧
    (tps_trend s = 0 ↔ |s.tps - s.tps_prev| ≤ 50) := by
  unfold tps_trend
  rw [abs_le]
  split_ifs with h1 h2
  · exact ⟨⟨fun _ => by linarith, fun _ => rfl⟩,
      ⟨fun h => absurd h (by norm_num), fun h => by linarith⟩,
      ⟨fun h => absurd h (by norm_num), fun h => by linarith [h.2]⟩⟩
  · exact ⟨⟨fun h => absurd h (by norm_num), fun h => by linarith⟩,
      ⟨fun _ => by linarith, fun _ => rfl⟩,
      ⟨fun h => absurd h (by norm_num), fun h => by linarith [h.1]⟩⟩
  · exact ⟨⟨fun h => absurd h (by norm_num), fun h => by linarith⟩,
      ⟨fun h => absurd h (by norm_num), fun h => by linarith⟩,
      ⟨fun _ => ⟨by linarith, by linarith⟩, fun _ => rfl⟩⟩

/-- The latency trend as a function of the signed delta, away from
`u64` wrap-around. -/
lemma latency_trend_delta (s : AppState)
    (h1 : s.latency_prev + 20 < U64) (h2 : s.metrics.latency_p99_ms + 20 < U64) :
    (latency_trend s = 1 ↔ 20 < (s.metrics.latency_p99_ms : ℤ) - s.latency_prev) ∧
    (latency_trend s = -1 ↔ (s.metrics.latency_p99_ms : ℤ) - s.latency_prev < -20) ∧
    (latency_trend s = 0 ↔ |(s.metrics.latency_p99_ms : ℤ) - s.latency_prev| ≤ 20) := by
  unfold latency_trend
  dsimp only
  rw [Nat.mod_eq_of_lt h1, Nat.mod_eq_of_lt h2, abs_le]
  split_ifs with ha hb <;> norm_num <;> omega

/-- The peer-count trend as a function of the signed delta, away from
`u64` wrap-around. -/
lemma peers_trend_delta (s : AppState)
    (h1 : s.peers_prev + 5 < U64) (h2 : s.metrics.peer_count + 5 < U64) :
    (peers_trend s = 1 ↔ 5 < (s.metrics.peer_count : ℤ) - s.peers_prev) ∧
    (peers_trend s = -1 ↔ (s.metrics.peer_count : ℤ) - s.peers_prev < -5) ∧
    (peers_trend s = 0 ↔ |(s.metrics.peer_count : ℤ) - s.peers_prev| ≤ 5) := by
  unfold peers_trend
  dsimp only
  rw [Nat.mod_eq_of_lt h1, Nat.mod_eq_of_lt h2, abs_le]
  split_ifs with ha hb <;> norm_num <;> omega

/-- C6 counterexample to the claim as stated: at a delta EXACTLY equal
to the noise threshold every trend accessor still returns 0, not the
sign the claim demands at the boundary (deltas +50 TPS, +20 ms, +5
peers shown). -/
theorem C6_boundary_cex :
    tps_trend { AppState.new 0 with tps := 50, tps_prev := 0 } = 0 ∧
    latency_trend { AppState.new 0 with metrics := { latency_p99_ms := 20 }, latency_prev := 0 } = 0 ∧
    peers_trend { AppState.new 0 with metrics := { peer_count := 5 }, peers_prev := 0 } = 0 := by
  refine ⟨by unfold tps_trend; norm_num [AppState.new], by decide, by decide⟩

/-- C6 (amended): each trend accessor returns 0 whenever the magnitude
of the delta is at most the noise threshold (50 TPS, 20 ms, 5 peers)
and returns the sign of the delta strictly beyond the threshold (the
`u64` accessors additionally assumed away from wrap-around). -/
theorem C6_trend_thresholds (s : AppState)
    (hl1 : s.latency_prev + 20 < U64) (hl2 : s.metrics.latency_p99_ms + 20 < U64)
    (hp1 : s.peers_prev + 5 < U64) (hp2 : s.metrics.peer_count + 5 < U64) :
    (tps_trend s = 1 ↔ 50 < s.tps - s.tps_prev) ∧
    (tps_trend s = -1 ↔ s.tps - s.tps_prev < -50) ∧
    (tps_trend s = 0 ↔ |s.tps - s.tps_prev| ≤ 50) ∧
    (latency_trend s = 1 ↔ 20 < (s.metrics.latency_p99_ms : ℤ) - s.latency_prev) ∧
    (latency_trend s = -1 ↔ (s.metrics.latency_p99_ms : ℤ) - s.latency_prev < -20) ∧
    (latency_trend s = 0 ↔ |(s.metrics.latency_p99_ms : ℤ) - s.latency_prev| ≤ 20) ∧
    (peers_trend s = 1 ↔ 5 < (s.metrics.peer_count : ℤ) - s.peers_prev) ∧
    (peers_trend s = -1 ↔ (s.metrics.peer_count : ℤ) - s.peers_prev < -5) ∧
    (peers_trend s = 0 ↔ |(s.metrics.peer_count : ℤ) - s.peers_prev| ≤ 5) := by
  obtain ⟨t1, t2, t3⟩ := tps_trend_delta s
  obtain ⟨l1, l2, l3⟩ := latency_trend_delta s hl1 hl2
  obtain ⟨p1, p2, p3⟩ := peers_trend_delta s hp1 hp2
  exact ⟨t1, t2, t3, l1, l2, l3, p1, p2, p3⟩

/-- Witness: `C6_trend_thresholds` at a concrete state with deltas
+51 TPS, +21 ms and 0 peers. -/
theorem C6_witness :
    tps_trend { AppState.new 0 with tps := 51, tps_prev := 0 } = 1 ∧
    latency_trend { AppState.new 0 with metrics := { latency_p99_ms := 21 }, latency_prev := 0 } = 1 := by
  constructor
  · exact (C6_trend_thresholds { AppState.new 0 with tps := 51, tps_prev := 0 }
      (by decide) (by decide) (by decide) (by decide)).1.mpr (by norm_num [AppState.new])
  · exact (C6_trend_thresholds { AppState.new 0 with metrics := { latency_p99_ms := 21 }, latency_prev := 0 }
      (by decide) (by decide) (by decide) (by decide)).2.2.2.1.mpr (by norm_num [AppState.new])

/-- C9 counterexample to the claim as stated: on the very first
`update_system` the previously stored counter is 0, so even though the
new counter (100) exceeds it, no rate is computed (the code's extra
`net_rx_prev > 0` guard); the claim's formula demands
`(100 - 0) / 5 = 20`. -/
theorem C9_first_update_cex :
    (update_system (AppState.new 0) { net_rx_bytes := 100, net_tx_bytes := 0 }).net_rx_rate = 0 ∧
    ((100 : ℚ) - 0) / 5 = 20 := by
  constructor
  · rfl
  · norm_num

/-- Normal form of `update_system`: both rates as conditional
updates, counters and snapshot stored unconditionally. -/
lemma update_system_eq (s : AppState) (y : SystemData) :
    update_system s y = { s with
      net_rx_rate := if s.net_rx_prev > 0 ∧ y.net_rx_bytes > s.net_rx_prev
        then ((y.net_rx_bytes - s.net_rx_prev : ℕ) : ℚ) / 5 else s.net_rx_rate
      net_tx_rate := if s.net_tx_prev > 0 ∧ y.net_tx_bytes > s.net_tx_prev
        then ((y.net_tx_bytes - s.net_tx_prev : ℕ) : ℚ) / 5 else s.net_tx_rate
      net_rx_prev := y.net_rx_bytes
      net_tx_prev := y.net_tx_bytes
      system := y } := by
  unfold update_system
  dsimp only
  split
  all_goals try dsimp only
  all_goals split
  all_goals rfl

/-- C9 (amended): `update_system` recomputes a byte rate as
`(new - prev) / 5` exactly when the stored counter is positive AND the
new counter strictly exceeds it; otherwise the rate is left unchanged;
the new counters are stored unconditionally. -/
theorem C9_update_system (s : AppState) (y : SystemData) :
    ((update_system s y).net_rx_prev = y.net_rx_bytes ∧
     (update_system s y).net_tx_prev = y.net_tx_bytes ∧
     (update_system s y).system = y) ∧
    (0 < s.net_rx_prev → s.net_rx_prev < y.net_rx_bytes →
      (update_system s y).net_rx_rate = ((y.net_rx_bytes - s.net_rx_prev : ℕ) : ℚ) / 5) ∧
    (s.net_rx_prev = 0 ∨ y.net_rx_bytes ≤ s.net_rx_prev →
      (update_system s y).net_rx_rate = s.net_rx_rate) ∧
    (0 < s.net_tx_prev → s.net_tx_prev < y.net_tx_bytes →
      (update_system s y).net_tx_rate = ((y.net_tx_bytes - s.net_tx_prev : ℕ) : ℚ) / 5) ∧
    (s.net_tx_prev = 0 ∨ y.net_tx_bytes ≤ s.net_tx_prev →
      (update_system s y).net_tx_rate = s.net_tx_rate) := by
  rw [update_system_eq]
  dsimp only
  refine ⟨⟨rfl, rfl, rfl⟩, ?_, ?_, ?_, ?_⟩
  · intro h1 h2
    rw [if_pos ⟨h1, h2⟩]
  · intro h
    rw [if_neg (by omega)]
  · intro h1 h2
    rw [if_pos ⟨h1, h2⟩]
  · intro h
    rw [if_neg (by omega)]

/-- Witness: `C9_update_system` at a state whose stored receive counter
is 10 and a snapshot with receive counter 110. -/
theorem C9_witness :
    (update_system { AppState.new 0 with net_rx_prev := 10 }
      { net_rx_bytes := 110, net_tx_bytes := 0 }).net_rx_rate = ((100 : ℕ) : ℚ) / 5 :=
  (C9_update_system { AppState.new 0 with net_rx_prev := 10 }
    { net_rx_bytes := 110, net_tx_bytes := 0 }).2.1 (by decide) (by decide)

/-- C3 counterexample to the claim as stated: starting from the default
(empty) window, processing new-head notifications with block numbers 5
then 3 leaves the window `[3, 5]`, which is not ordered newest-first;
the code prepends unconditionally (no ordering guard on the incoming
head number). -/
theorem C3_out_of_order_cex :
    ((insert_new_head (insert_new_head RpcData.mkDefault ⟨5, [], 0, 0, 0, 0⟩)
        ⟨3, [], 0, 0, 0, 0⟩).recent_blocks.map Block.number = [3, 5]) ∧
    ¬ ((insert_new_head (insert_new_head RpcData.mkDefault ⟨5, [], 0, 0, 0, 0⟩)
        ⟨3, [], 0, 0, 0, 0⟩).recent_blocks.map Block.number).Pairwise (· > ·) := by
  constructor
  · rfl
  · decide

/-- C3 (amended): the window length never exceeds 30 after ANY
sequence of processed notifications, and one insertion preserves the
newest-first (strictly decreasing) order provided the incoming head's
number exceeds every block number currently in the window (as it does
when heads arrive in increasing order). -/
theorem C3_window_invariant :
    (∀ (bs : List Block) (d : RpcData), d.recent_blocks.length ≤ 30 →
      (bs.foldl insert_new_head d).recent_blocks.length ≤ 30) ∧
    (∀ (d : RpcData) (b : Block), d.recent_blocks.length ≤ 30 →
      ((d.recent_blocks.map Block.number).Pairwise (· > ·)) →
      (∀ x ∈ d.recent_blocks.map Block.number, x < b.number) →
      (insert_new_head d b).recent_blocks.length ≤ 30 ∧
      (((insert_new_head d b).recent_blocks.map Block.number).Pairwise (· > ·))) := by
  have step_len : ∀ (d : RpcData) (b : Block), d.recent_blocks.length ≤ 30 →
      (insert_new_head d b).recent_blocks.length ≤ 30 := by
    intro d b h
    unfold insert_new_head
    split
    · dsimp only
      split
      · rename_i hlong
        simp only [List.length_dropLast, List.length_cons] at *
        omega
      · rename_i hshort
        simp only [List.length_cons] at *
        omega
    · exact h
  constructor
  · intro bs
    induction bs with
    | nil => intro d h; exact h
    | cons b t ih =>
      intro d h
      exact ih _ (step_len d b h)
  · intro d b hlen hsorted hmax
    refine ⟨step_len d b hlen, ?_⟩
    unfold insert_new_head
    split
    · dsimp only
      have hcons : ((b :: d.recent_blocks).map Block.number).Pairwise (· > ·) := by
        simp only [List.map_cons, List.pairwise_cons]
        exact ⟨fun x hx => hmax x hx, hsorted⟩
      split
      · rename_i hlong
        exact hcons.sublist ((List.dropLast_sublist _).map Block.number)
      · exact hcons
    · exact hsorted

/-- Witness: `C3_window_invariant` for one in-order insertion into the
singleton window `[block 1]`. -/
theorem C3_witness :
    ((insert_new_head { RpcData.mkDefault with recent_blocks := [⟨1, [], 0, 0, 0, 0⟩] }
      ⟨2, [], 0, 0, 0, 0⟩).recent_blocks.map Block.number).Pairwise (· > ·) :=
  ((C3_window_invariant).2 { RpcData.mkDefault with recent_blocks := [⟨1, [], 0, 0, 0, 0⟩] }
    ⟨2, [], 0, 0, 0, 0⟩ (by decide) (by decide) (by decide)).2

/-- `update_metrics` records `now` as the last block instant whenever
the incoming snapshot's block number exceeds the last known one. -/
lemma update_metrics_last_block_time (s : AppState) (m : PrometheusMetrics) (now : ℕ)
    (h : m.block_num > s.last_block_number) :
    (update_metrics s m now).last_block_time = some now := by
  unfold update_metrics
  dsimp only
  rw [if_pos h]
  rw [(calculate_tps_keeps _).2.1]

/-- C7: pulse intensity is 1 at zero elapsed time since the last block,
strictly decreasing over the next 1000 ms, 0 from 1000 ms on, 0 before
any block has been observed, and reset to 1 by an `update_metrics`
carrying a higher block number. -/
theorem C7_pulse (s : AppState) :
    (∀ t, s.last_block_time = some t → pulse_intensity s t = 1) ∧
    (∀ t e1 e2, s.last_block_time = some t → e1 < e2 → e2 ≤ 1000 →
      pulse_intensity s (t + e2) < pulse_intensity s (t + e1)) ∧
    (∀ t e, s.last_block_time = some t → 1000 ≤ e → pulse_intensity s (t + e) = 0) ∧
    (s.last_block_time = none → ∀ now, pulse_intensity s now = 0) ∧
    (∀ m now, m.block_num > s.last_block_number →
      pulse_intensity (update_metrics s m now) now = 1) := by
  refine ⟨?_, ?_, ?_, ?_, ?_⟩
  · intro t ht
    simp [pulse_intensity, ht]
  · intro t e1 e2 ht h12 h2k
    simp only [pulse_intensity, ht]
    have hsub1 : t + e1 - t = e1 := by omega
    have hsub2 : t + e2 - t = e2 := by omega
    rw [hsub1, hsub2]
    have hq2 : ((e2 : ℚ)) ≤ 1000 := by exact_mod_cast h2k
    have hmax2 : (1 : ℚ) - (e2 : ℚ) / 1000 ≥ 0 := by linarith
    have hq12 : ((e1 : ℚ)) < (e2 : ℚ) := by exact_mod_cast h12
    rw [max_eq_left hmax2, max_eq_left (by linarith)]
    linarith
  · intro t e ht hke
    simp only [pulse_intensity, ht]
    have hsub : t + e - t = e := by omega
    rw [hsub]
    have hq : (1000 : ℚ) ≤ (e : ℚ) := by exact_mod_cast hke
    rw [max_eq_right (by linarith)]
  · intro hne now
    simp [pulse_intensity, hne]
  · intro m now h
    rw [pulse_intensity, update_metrics_last_block_time s m now h]
    simp

/-- Witness: `C7_pulse` at a state that saw its last block at
`t = 100`, evaluated 0 ms, 400 ms vs 600 ms, and 1000 ms later. -/
theorem C7_witness :
    pulse_intensity { AppState.new 0 with last_block_time := some 100 } 100 = 1 ∧
    pulse_intensity { AppState.new 0 with last_block_time := some 100 } (100 + 600) <
      pulse_intensity { AppState.new 0 with last_block_time := some 100 } (100 + 400) ∧
    pulse_intensity { AppState.new 0 with last_block_time := some 100 } (100 + 1000) = 0 :=
  ⟨(C7_pulse _).1 100 rfl,
   (C7_pulse _).2.1 100 400 600 rfl (by decide) (by decide),
   (C7_pulse _).2.2.1 100 1000 rfl (by decide)⟩

/-- The back of the ring after `push_sample` is at least as new as the
snapshot's timestamp (when that timestamp is positive). -/
lemma push_sample_getLast (l : List TxSample) (m : PrometheusMetrics)
    (hts : m.tx_commits_timestamp_ms > 0) :
    ∃ b, (push_sample l m).getLast? = some b ∧ m.tx_commits_timestamp_ms ≤ b.timestamp_ms := by
  unfold push_sample
  rw [if_pos hts]
  rcases l with _ | ⟨a, t⟩
  · exact ⟨⟨m.tx_commits, m.tx_commits_timestamp_ms⟩, by simp [SAMPLE_HISTORY_SIZE], le_refl _⟩
  · by_cases hnew : (((a :: t).getLast?).map
        (fun b => decide (m.tx_commits_timestamp_ms > b.timestamp_ms))).getD true = true
    · rw [if_pos hnew]
      dsimp only
      split
      · refine ⟨⟨m.tx_commits, m.tx_commits_timestamp_ms⟩, ?_, le_refl _⟩
        rw [List.cons_append, List.tail_cons, List.getLast?_concat]
      · refine ⟨⟨m.tx_commits, m.tx_commits_timestamp_ms⟩, ?_, le_refl _⟩
        rw [List.getLast?_concat]
    · rw [if_neg hnew]
      cases hb : (a :: t).getLast? with
      | none => rw [List.getLast?_eq_none_iff] at hb; cases hb
      | some b =>
        rw [hb] at hnew
        simp only [Option.map_some', Option.getD_some, decide_eq_true_eq] at hnew
        exact ⟨b, rfl, by omega⟩

/-- A snapshot with a zero tx-commit timestamp never touches the
ring. -/
lemma push_sample_zero (l : List TxSample) (m : PrometheusMetrics)
    (hts : ¬ m.tx_commits_timestamp_ms > 0) : push_sample l m = l := by
  unfold push_sample
  rw [if_neg hts]

/-- A snapshot whose timestamp is not newer than the back of the ring
is rejected. -/
lemma push_sample_stale (l : List TxSample) (m : PrometheusMetrics) (b : TxSample)
    (hb : l.getLast? = some b) (hold : ¬ m.tx_commits_timestamp_ms > b.timestamp_ms) :
    push_sample l m = l := by
  unfold push_sample
  by_cases hts : m.tx_commits_timestamp_ms > 0
  · rw [if_pos hts, hb]
    simp only [Option.map_some', Option.getD_some]
    rw [if_neg (by simpa using hold)]
  · rw [if_neg hts]

/-- Pushing the same snapshot twice is the same as pushing it once. -/
lemma push_sample_idem (l : List TxSample) (m : PrometheusMetrics) :
    push_sample (push_sample l m) m = push_sample l m := by
  by_cases hts : m.tx_commits_timestamp_ms > 0
  · obtain ⟨b, hb, hle⟩ := push_sample_getLast l m hts
    exact push_sample_stale _ m b hb (by omega)
  · rw [push_sample_zero _ _ hts]

/-- The sample ring after `update_metrics` is `push_sample` of the old
ring. -/
lemma update_metrics_tx_samples (s : AppState) (m : PrometheusMetrics) (now : ℕ) :
    (update_metrics s m now).tx_samples = push_sample s.tx_samples m := by
  unfold update_metrics
  dsimp only
  rw [(calculate_tps_keeps _).2.2.1]
  split <;> rfl

/-- The TPS field after `update_metrics` is the value computed from the
new ring, defaulting to the old TPS when the computation is skipped. -/
lemma update_metrics_tps (s : AppState) (m : PrometheusMetrics) (now : ℕ) :
    (update_metrics s m now).tps = (tps_of_samples (push_sample s.tx_samples m)).getD s.tps := by
  unfold update_metrics
  dsimp only
  have hcalc : ∀ u : AppState, (calculate_tps u).tps = (tps_of_samples u.tx_samples).getD u.tps := by
    intro u
    unfold calculate_tps
    cases tps_of_samples u.tx_samples <;> simp
  split
  · rw [hcalc]
  · rw [hcalc]

/-- C8: feeding `update_metrics` the same snapshot again (same
tx-commit counter and timestamp, no new distinct sample in between)
leaves the `tps` field unchanged. -/
theorem C8_tps_idempotent (s : AppState) (m : PrometheusMetrics) (n1 n2 : ℕ) :
    (update_metrics (update_metrics s m n1) m n2).tps = (update_metrics s m n1).tps := by
  rw [update_metrics_tps, update_metrics_tps, update_metrics_tx_samples, push_sample_idem]
  cases h : tps_of_samples (push_sample s.tx_samples m) <;> simp

/-- Invariant: every sample in the ring has a strictly positive
timestamp. -/
def samples_pos (s : AppState) : Prop :=
  ∀ x ∈ s.tx_samples, 0 < x.timestamp_ms

/-- `push_sample` preserves positivity of the ring's timestamps. -/
lemma push_sample_pos (l : List TxSample) (m : PrometheusMetrics)
    (h : ∀ x ∈ l, 0 < x.timestamp_ms) :
    ∀ x ∈ push_sample l m, 0 < x.timestamp_ms := by
  unfold push_sample
  split
  · rename_i hts
    split
    · have hall : ∀ x ∈ l ++ [(⟨m.tx_commits, m.tx_commits_timestamp_ms⟩ : TxSample)],
          0 < x.timestamp_ms := by
        intro x hx
        rcases List.mem_append.mp hx with hx | hx
        · exact h x hx
        · simp only [List.mem_singleton] at hx
          subst hx
          exact hts
      dsimp only
      split
      · intro x hx
        exact hall x (List.mem_of_mem_tail hx)
      · exact hall
    · exact h
  · exact h

/-- `update_rpc`, `update_system` and `set_error` never touch the
sample ring. -/
lemma tx_samples_untouched (s : AppState) (r : RpcData) (y : SystemData)
    (e : List Char) (now : ℕ) :
    (update_rpc s r now).tx_samples = s.tx_samples ∧
    (update_system s y).tx_samples = s.tx_samples ∧
    (set_error s e).tx_samples = s.tx_samples := by
  refine ⟨?_, ?_, rfl⟩
  · unfold update_rpc
    dsimp only
    cases r.recent_blocks.head?
    · rfl
    · dsimp only
      split <;> rfl
  · unfold update_system
    dsimp only
    split <;> split <;> rfl

/-- Every aggregator operation preserves the positive-timestamp
invariant of the sample ring. -/
lemma applyOp_samples_pos (s : AppState) (op : AggOp) (h : samples_pos s) :
    samples_pos (applyOp s op) := by
  cases op with
  | metricsUpd m now =>
    unfold samples_pos
    rw [show (applyOp s (.metricsUpd m now)) = update_metrics s m now from rfl,
      update_metrics_tx_samples]
    exact push_sample_pos _ m h
  | rpcUpd r now =>
    unfold samples_pos
    rw [show (applyOp s (.rpcUpd r now)) = update_rpc s r now from rfl,
      (tx_samples_untouched s r {} [] now).1]
    exact h
  | systemUpd y =>
    unfold samples_pos
    rw [show (applyOp s (.systemUpd y)) = update_system s y from rfl,
      (tx_samples_untouched s {} y [] 0).2.1]
    exact h
  | errorUpd e =>
    exact h

/-- C10: starting from a fresh `AppState`, after any sequence of
aggregator operations every retained TX sample has a strictly positive
timestamp (snapshots with tx-commit timestamp 0 are never admitted);
moreover an all-default metrics snapshot leaves the sample ring
unchanged. -/
theorem C10_sample_gating (ops : List AggOp) (n0 : ℕ) (s : AppState) (now : ℕ)
    (hs : samples_pos s) :
    samples_pos (ops.foldl applyOp (AppState.new n0)) ∧
    samples_pos (applyOp s (.metricsUpd PrometheusMetrics.mkDefault now)) ∧
    (update_metrics s PrometheusMetrics.mkDefault now).tx_samples = s.tx_samples := by
  refine ⟨?_, applyOp_samples_pos s _ hs, ?_⟩
  · have base : samples_pos (AppState.new n0) := by
      intro x hx
      cases hx
    have gen : ∀ (l : List AggOp) (u : AppState), samples_pos u →
        samples_pos (l.foldl applyOp u) := by
      intro l
      induction l with
      | nil => exact fun u hu => hu
      | cons op t ih => exact fun u hu => ih _ (applyOp_samples_pos u op hu)
    exact gen ops _ base
  · rw [update_metrics_tx_samples]
    exact push_sample_zero _ _ (by decide)

/-- Witness: `C10_sample_gating` for one concrete operation sequence
from a fresh state, at a state holding one positive-timestamp
sample. -/
theorem C10_witness :
    samples_pos ([AggOp.metricsUpd { tx_commits := 7, tx_commits_timestamp_ms := 3 } 1,
        AggOp.errorUpd []].foldl applyOp (AppState.new 0)) ∧
    (update_metrics { AppState.new 0 with tx_samples := [⟨7, 3⟩] }
      PrometheusMetrics.mkDefault 2).tx_samples = [(⟨7, 3⟩ : TxSample)] :=
  ⟨(C10_sample_gating [AggOp.metricsUpd { tx_commits := 7, tx_commits_timestamp_ms := 3 } 1,
        AggOp.errorUpd []] 0 (AppState.new 0) 0 (fun x hx => by cases hx)).1,
   (C10_sample_gating [] 0 { AppState.new 0 with tx_samples := [⟨7, 3⟩] } 2
      (by intro x hx; simp only [List.mem_singleton] at hx; subst hx; decide)).2.2⟩

/-- `tps_of_samples` on a two-sample ring. -/
lemma tps_of_samples_pair (a b : TxSample) : tps_of_samples [a, b] =
    (if b.timestamp_ms - a.timestamp_ms > 0 then
      some (((b.tx_commits - a.tx_commits : ℕ) : ℚ) /
        ((b.timestamp_ms - a.timestamp_ms : ℕ) : ℚ) * 1000)
    else none) := rfl

/-- The TPS history after `update_metrics`: one capped entry is
appended (with front trim past capacity) exactly when a TPS value was
computed from the new ring. -/
lemma update_metrics_tps_history (s : AppState) (m : PrometheusMetrics) (now : ℕ) :
    (update_metrics s m now).tps_history =
      match tps_of_samples (push_sample s.tx_samples m) with
      | none => s.tps_history
      | some v =>
        if (s.tps_history ++ [f64_as_u64 (min v 10000)]).length > TPS_HISTORY_SIZE
          then (s.tps_history ++ [f64_as_u64 (min v 10000)]).tail
          else s.tps_history ++ [f64_as_u64 (min v 10000)] := by
  unfold update_metrics
  dsimp only
  have hcalc : ∀ u : AppState, (calculate_tps u).tps_history =
      match tps_of_samples u.tx_samples with
      | none => u.tps_history
      | some v =>
        if (u.tps_history ++ [f64_as_u64 (min v 10000)]).length > TPS_HISTORY_SIZE
          then (u.tps_history ++ [f64_as_u64 (min v 10000)]).tail
          else u.tps_history ++ [f64_as_u64 (min v 10000)] := by
    intro u
    unfold calculate_tps
    cases tps_of_samples u.tx_samples <;> rfl
  split
  · rw [hcalc]
  · rw [hcalc]

/-- Appending a strictly newer sample to a singleton ring. -/
lemma push_sample_grow (a : TxSample) (m : PrometheusMetrics)
    (hnew : a.timestamp_ms < m.tx_commits_timestamp_ms) :
    push_sample [a] m = [a, ⟨m.tx_commits, m.tx_commits_timestamp_ms⟩] := by
  unfold push_sample
  rw [if_pos (by omega)]
  simp only [List.getLast?_singleton, Option.map_some', Option.getD_some]
  rw [if_pos (by simpa using hnew)]
  rfl

/-- Admitting a first sample into the empty ring. -/
lemma push_sample_first (m : PrometheusMetrics) (hts : 0 < m.tx_commits_timestamp_ms) :
    push_sample [] m = [⟨m.tx_commits, m.tx_commits_timestamp_ms⟩] := by
  unfold push_sample
  rw [if_pos hts]
  rfl

/-- C1: from a fresh state, three `update_metrics` calls with
tx-commit counters 1000, 1000, 1500 at timestamps `t`, `t`, `t+2000`
(the middle call repeats the timestamp and is not sampled) leave
`tps = 250` and `tps_history` with exactly the one new entry `[250]`. -/
theorem C1_tps_scenario (t n0 n1 n2 n3 : ℕ) (ht : 0 < t) :
    (update_metrics (update_metrics (update_metrics (AppState.new n0)
        { tx_commits := 1000, tx_commits_timestamp_ms := t } n1)
        { tx_commits := 1000, tx_commits_timestamp_ms := t } n2)
        { tx_commits := 1500, tx_commits_timestamp_ms := t + 2000 } n3).tps = 250 ∧
    (update_metrics (update_metrics (update_metrics (AppState.new n0)
        { tx_commits := 1000, tx_commits_timestamp_ms := t } n1)
        { tx_commits := 1000, tx_commits_timestamp_ms := t } n2)
        { tx_commits := 1500, tx_commits_timestamp_ms := t + 2000 } n3).tps_history = [250] := by
  set m1 : PrometheusMetrics := { tx_commits := 1000, tx_commits_timestamp_ms := t } with hm1
  set m3 : PrometheusMetrics := { tx_commits := 1500, tx_commits_timestamp_ms := t + 2000 } with hm3
  set s1 := update_metrics (AppState.new n0) m1 n1 with hs1
  set s2 := update_metrics s1 m1 n2 with hs2
  have hp1 : push_sample (AppState.new n0).tx_samples m1 = [⟨1000, t⟩] :=
    push_sample_first m1 ht
  have hsam1 : s1.tx_samples = [⟨1000, t⟩] := by
    rw [hs1, update_metrics_tx_samples, hp1]
  have hh1 : s1.tps_history = [] := by
    rw [hs1, update_metrics_tps_history, hp1]
    rfl
  have hp2 : push_sample s1.tx_samples m1 = [⟨1000, t⟩] := by
    rw [hsam1]
    exact push_sample_stale _ m1 ⟨1000, t⟩ rfl (lt_irrefl t)
  have hsam2 : s2.tx_samples = [⟨1000, t⟩] := by
    rw [hs2, update_metrics_tx_samples, hp2]
  have hh2 : s2.tps_history = [] := by
    rw [hs2, update_metrics_tps_history, hp2]
    exact hh1
  have hp3 : push_sample s2.tx_samples m3 = [⟨1000, t⟩, ⟨1500, t + 2000⟩] := by
    rw [hsam2]
    refine push_sample_grow ⟨1000, t⟩ m3 ?_
    rw [hm3]
    show t < t + 2000
    omega
  have htps3 : tps_of_samples [(⟨1000, t⟩ : TxSample), ⟨1500, t + 2000⟩] = some 250 := by
    rw [tps_of_samples_pair]
    have hd : t + 2000 - t = 2000 := by omega
    rw [hd]
    norm_num
  constructor
  · rw [update_metrics_tps, hp3, htps3]
    rfl
  · rw [update_metrics_tps_history, hp3, htps3]
    rw [hh2]
    decide

/-- Witness: `C1_tps_scenario` at `t = 1`. -/
theorem C1_witness :
    (update_metrics (update_metrics (update_metrics (AppState.new 0)
        { tx_commits := 1000, tx_commits_timestamp_ms := 1 } 0)
        { tx_commits := 1000, tx_commits_timestamp_ms := 1 } 0)
        { tx_commits := 1500, tx_commits_timestamp_ms := 1 + 2000 } 0).tps = 250 :=
  (C1_tps_scenario 1 0 0 0 0 (by decide)).1

/-- `takeWhile` stops exactly at the first failing element. -/
lemma takeWhile_append_cons (p : Char → Bool) (l₁ l₂ : List Char) (c : Char)
    (h : ∀ a ∈ l₁, p a = true) (hc : p c = false) :
    (l₁ ++ c :: l₂).takeWhile p = l₁ := by
  induction l₁ with
  | nil => simp [List.takeWhile_cons, hc]
  | cons a t ih =>
    simp [List.cons_append, List.takeWhile_cons, h a (by simp),
      ih (fun x hx => h x (by simp [hx]))]

/-- `dropWhile` drops exactly up to the first failing element. -/
lemma dropWhile_append_cons (p : Char → Bool) (l₁ l₂ : List Char) (c : Char)
    (h : ∀ a ∈ l₁, p a = true) (hc : p c = false) :
    (l₁ ++ c :: l₂).dropWhile p = c :: l₂ := by
  induction l₁ with
  | nil => simp [List.dropWhile_cons, hc]
  | cons a t ih =>
    simp only [List.cons_append, List.dropWhile_cons, h a (by simp)]
    exact ih (fun x hx => h x (by simp [hx]))

/-- Label-block lines: the name is everything before the first `\x7b`,
the label block is skipped entirely, and the value/timestamp are parsed
from the text after the first `\x7d` (assumed not to occur inside the
name or the labels). -/
lemma parse_line_brace (name labels rest : List Char)
    (h1 : '{' ∉ name) (h2 : '}' ∉ name) (h3 : '}' ∉ labels) :
    parse_metric_line (name ++ '{' :: (labels ++ '}' :: rest)) =
      (parseValueTimestamp (rustTrim rest)).map (fun vt => (name, vt.1, vt.2)) := by
  unfold parse_metric_line
  dsimp only
  rw [if_pos (by simp : '{' ∈ name ++ '{' :: (labels ++ '}' :: rest))]
  rw [takeWhile_append_cons _ name (labels ++ '}' :: rest) '{'
    (fun a ha => by simp [ne_of_mem_of_not_mem ha h1]) (by simp)]
  rw [show name ++ '{' :: (labels ++ '}' :: rest) = (name ++ '{' :: labels) ++ '}' :: rest by
    simp]
  have hall : ∀ a ∈ name ++ '{' :: labels, (fun c => decide (c ≠ '}')) a = true := by
    intro a ha
    rcases List.mem_append.mp ha with ha | ha
    · simp [ne_of_mem_of_not_mem ha h2]
    · rcases List.mem_cons.mp ha with ha | ha
      · simp [ha]
      · simp [ne_of_mem_of_not_mem ha h3]
  rw [dropWhile_append_cons _ (name ++ '{' :: labels) rest '}' hall (by simp)]

/-- Brace-free lines split at the first whitespace character into the
name and the value/timestamp text. -/
lemma parse_line_nobrace (name rest : List Char) (c : Char)
    (hc : rustIsWhitespace c = true)
    (hn : ∀ a ∈ name, rustIsWhitespace a = false)
    (h1 : '{' ∉ name) (h2 : '{' ∉ rest) :
    parse_metric_line (name ++ c :: rest) =
      (parseValueTimestamp (rustTrim rest)).map (fun vt => (name, vt.1, vt.2)) := by
  have hcnb : c ≠ '{' := by
    rintro rfl
    exact absurd hc (by decide)
  have hnotin : '{' ∉ name ++ c :: rest := by
    intro h
    rcases List.mem_append.mp h with h | h
    · exact h1 h
    · rcases List.mem_cons.mp h with h | h
      · exact hcnb h.symm
      · exact h2 h
  unfold parse_metric_line
  dsimp only
  rw [if_neg hnotin]
  rw [dropWhile_append_cons _ name rest c (fun a ha => by simp [hn a ha]) (by simp [hc])]
  rw [takeWhile_append_cons _ name rest c (fun a ha => by simp [hn a ha]) (by simp [hc])]

/-- The example value literal `4.1929095e+07` parses to the exact
rational 41929095. -/
lemma parseF64_example : parseF64 ("4.1929095e+07".toList) = some 41929095 := by
  have h : parseF64 ("4.1929095e+07".toList) =
      some ((1 : ℚ) * (((4 : ℕ) : ℚ) + ((1929095 : ℕ) : ℚ) / (10 : ℚ) ^ (7 : ℕ)) *
        (10 : ℚ) ^ ((1 : ℤ) * ((7 : ℕ) : ℤ))) := rfl
  rw [h]
  norm_num

/-- The example line's tail parses to value 41929095 and timestamp
1765694534456. -/
lemma parseVT_example :
    parseValueTimestamp (rustTrim (" 4.1929095e+07 1765694534456".toList)) =
      some (41929095, 1765694534456) := by
  have hft : firstToken (rustTrim (" 4.1929095e+07 1765694534456".toList)) =
      some ("4.1929095e+07".toList, " 1765694534456".toList) := rfl
  have hu : parseU64 ("1765694534456".toList) = some 1765694534456 := by decide
  have hft2 : firstToken (" 1765694534456".toList) = some ("1765694534456".toList, []) := rfl
  unfold parseValueTimestamp
  rw [hft]
  dsimp only
  rw [parseF64_example]
  dsimp only
  rw [hft2]
  dsimp only
  rw [hu]
  rfl

/-- C2 (amended): the parser takes the name as the text before the
first `\x7b`, skips the labels entirely, and parses value/timestamp
from the text after the FIRST `\x7d` of the line (the matching one
whenever labels contain no `\x7d`); brace-free lines split at the
first whitespace; the example line parses to name `foo`, the exact
value 41929095 (truncating to 41929095 as a `u64`), timestamp
1765694534456. -/
theorem C2_parser_shape :
    (∀ (name labels rest : List Char), '{' ∉ name → '}' ∉ name → '}' ∉ labels →
      parse_metric_line (name ++ '{' :: (labels ++ '}' :: rest)) =
        (parseValueTimestamp (rustTrim rest)).map (fun vt => (name, vt.1, vt.2))) ∧
    (∀ (name rest : List Char) (c : Char), rustIsWhitespace c = true →
      (∀ a ∈ name, rustIsWhitespace a = false) → '{' ∉ name → '{' ∉ rest →
      parse_metric_line (name ++ c :: rest) =
        (parseValueTimestamp (rustTrim rest)).map (fun vt => (name, vt.1, vt.2))) ∧
    parse_metric_line ("foo\x7bjob=\"x\"\x7d 4.1929095e+07 1765694534456".toList) =
      some ("foo".toList, 41929095, 1765694534456) ∧
    f64_as_u64 41929095 = 41929095 := by
  refine ⟨parse_line_brace, parse_line_nobrace, ?_, by decide⟩
  rw [show ("foo\x7bjob=\"x\"\x7d 4.1929095e+07 1765694534456".toList) =
    ("foo".toList ++ '{' :: ("job=\"x\"".toList ++ '}' ::
      (" 4.1929095e+07 1765694534456".toList))) from rfl]
  rw [parse_line_brace ("foo".toList) ("job=\"x\"".toList)
    (" 4.1929095e+07 1765694534456".toList) (by decide) (by decide) (by decide)]
  rw [parseVT_example]
  rfl

/-- The value 1 after the matching brace of the counterexample line
parses fine. -/
lemma parseVT_one : parseValueTimestamp (rustTrim (" 1".toList)) = some (1, 0) := by
  have hft : firstToken (rustTrim (" 1".toList)) = some ("1".toList, []) := rfl
  have hf : parseF64 ("1".toList) =
      some ((1 : ℚ) * (((1 : ℕ) : ℚ) + ((0 : ℕ) : ℚ) / (10 : ℚ) ^ (0 : ℕ))) := rfl
  unfold parseValueTimestamp
  rw [hft]
  dsimp only
  rw [hf]
  dsimp only
  rw [show firstToken ([] : List Char) = none from rfl]
  dsimp only
  norm_num

/-- C2 counterexample to the claim as stated: the well-formed line
`f\x7ba="\x7d"\x7d 1` has a label value containing a `\x7d`, so the code's
"first `\x7d`" split lands inside the label block and the whole parse
fails (returns nothing), even though the text after the MATCHING
`\x7d` parses fine as value 1 and timestamp 0. -/
theorem C2_quoted_brace_cex :
    parse_metric_line ("f\x7ba=\"\x7d\"\x7d 1".toList) = none ∧
    parseValueTimestamp (rustTrim (" 1".toList)) = some (1, 0) := by
  refine ⟨by decide, parseVT_one⟩

/-- Witness: `C2_parser_shape`'s label-block component at the concrete
line `ab\x7bx="1"\x7d 2 3`. -/
theorem C2_witness :
    parse_metric_line ("ab\x7bx=\"1\"\x7d 2 3".toList) = some ("ab".toList, 2, 3) := by
  rw [show ("ab\x7bx=\"1\"\x7d 2 3".toList) =
    ("ab".toList ++ '{' :: ("x=\"1\"".toList ++ '}' :: (" 2 3".toList))) from rfl]
  rw [C2_parser_shape.1 ("ab".toList) ("x=\"1\"".toList) (" 2 3".toList)
    (by decide) (by decide) (by decide)]
  have hft : firstToken (rustTrim (" 2 3".toList)) = some ("2".toList, " 3".toList) := rfl
  have hf : parseF64 ("2".toList) =
      some ((1 : ℚ) * (((2 : ℕ) : ℚ) + ((0 : ℕ) : ℚ) / (10 : ℚ) ^ (0 : ℕ))) := rfl
  have hft2 : firstToken (" 3".toList) = some ("3".toList, []) := rfl
  have hu : parseU64 ("3".toList) = some 3 := by decide
  unfold parseValueTimestamp
  rw [hft]
  dsimp only
  rw [hf]
  dsimp only
  rw [hft2]
  dsimp only
  rw [hu]
  norm_num
